import Mathlib

/-!
Verification of the job-scanner scraping/filtering/store pipeline.

The definitions below are a shallow embedding of the Python sources:
`src/utils/helpers.py`, `src/scrapers/base_scraper.py`,
`src/scrapers/linkedin_scraper.py`, `src/scrapers/google_scraper.py` and
`src/database/job_store.py`.  Times (`datetime`) are modelled as integer
numbers of seconds; strings are Lean `String`s, operated on through their
character lists so that every function is computable and kernel-evaluable.
-/

namespace JobScanner

/-- ASCII lower-casing of a character list (Python `str.lower` restricted to
the basic-latin range, which covers every vocabulary the code matches on). -/
def lowerChars (l : List Char) : List Char := l.map Char.toLower

/-- Python substring test `needle in hay` on character lists. -/
def hasSubstr (needle : List Char) : List Char → Bool
  | [] => needle.isEmpty
  | c :: rest => needle.isPrefixOf (c :: rest) || hasSubstr needle rest

/-- Case-insensitive substring test between two strings, as used throughout
`helpers.py` (`x.lower() in y.lower()`). -/
def containsCI (needle hay : String) : Bool :=
  hasSubstr (lowerChars needle.data) (lowerChars hay.data)

/-- Split into maximal whitespace-free words, dropping empty pieces:
Python `location.split()`.  The accumulator holds the current word reversed. -/
def wordsAux (cur : List Char) : List Char → List (List Char)
  | [] => if cur.isEmpty then [] else [cur.reverse]
  | c :: rest =>
    if c.isWhitespace then
      if cur.isEmpty then wordsAux [] rest else cur.reverse :: wordsAux [] rest
    else wordsAux (c :: cur) rest

/-- Join words with single spaces: Python `" ".join(words)`. -/
def joinSpace : List (List Char) → List Char
  | [] => []
  | [w] => w
  | w :: ws => w ++ ' ' :: joinSpace ws

/-- One step of Python `str.replace(old, new)` (all non-overlapping
occurrences, scanning left to right), with fuel bounding the scan length. -/
def replaceFuel (old new : List Char) : Nat → List Char → List Char
  | 0, s => s
  | _ + 1, [] => []
  | fuel + 1, c :: rest =>
    if old.isPrefixOf (c :: rest) then
      new ++ replaceFuel old new fuel (rest.drop (old.length - 1))
    else
      c :: replaceFuel old new fuel rest

/-- Python `s.replace(old, new)` for a non-empty pattern (every pattern in the
location-mapping table is non-empty). -/
def pyReplace (s old new : List Char) : List Char :=
  if old.isEmpty then s else replaceFuel old new s.length s

/-- The fixed substitution table of `normalize_location` (helpers.py), in the
source's insertion order. -/
def locationMappings : List (String × String) :=
  [("United Arab Emirates", "UAE"), ("U.A.E.", "UAE"),
   ("Deutschland", "Germany"), ("España", "Spain"), ("Polska", "Poland"),
   ("Nederland", "Netherlands"), ("Éire", "Ireland")]

/-- `normalize_location` (helpers.py): empty/falsy input maps to `""`;
otherwise whitespace runs are collapsed to single spaces and the fixed
substitution table is applied in order. -/
def normalize_location (location : String) : String :=
  if location = "" then ""
  else
    let collapsed := joinSpace (wordsAux [] location.data)
    let replaced := locationMappings.foldl
      (fun acc m => pyReplace acc m.1.data m.2.data) collapsed
    ⟨replaced⟩

/-- The EU country vocabulary of `is_eu_location` (helpers.py). -/
def eu_countries : List String :=
  ["Austria", "Belgium", "Bulgaria", "Croatia", "Cyprus",
   "Czech Republic", "Czechia", "Denmark", "Estonia", "Finland",
   "France", "Germany", "Greece", "Hungary", "Ireland",
   "Italy", "Latvia", "Lithuania", "Luxembourg", "Malta",
   "Netherlands", "Poland", "Portugal", "Romania", "Slovakia",
   "Slovenia", "Spain", "Sweden"]

/-- `is_eu_location` (helpers.py): case-insensitive substring match of the
location against the fixed EU country vocabulary. -/
def is_eu_location (location : String) : Bool :=
  eu_countries.any (fun country => containsCI country location)

/-- The UAE indicator vocabulary of `is_uae_location` (helpers.py). -/
def uae_indicators : List String :=
  ["uae", "dubai", "abu dhabi", "sharjah", "united arab emirates"]

/-- `is_uae_location` (helpers.py): case-insensitive substring match against
the UAE indicator vocabulary. -/
def is_uae_location (location : String) : Bool :=
  uae_indicators.any (fun indicator => containsCI indicator location)

/-- `days_since_posted` (helpers.py): `float('inf')` for an absent date,
otherwise `(now - posted_date).days`, which Python's `timedelta` computes as
the *floor* of the elapsed seconds divided by 86400. -/
def days_since_posted (now : Int) (posted_date : Option Int) : WithTop Int :=
  match posted_date with
  | none => ⊤
  | some d => ((now - d).fdiv 86400 : Int)

/-- The `Job` dataclass of `base_scraper.py`.  `datetime` fields are integer
seconds; `posted_date` is optional exactly as in the source. -/
structure Job where
  id : String
  title : String
  company : String
  location : String
  description : String
  url : String
  posted_date : Option Int := none
  requirements : List String := []
  keywords : List String := []
  is_eu : Bool := false
  is_uae : Bool := false
  scraped_at : Int := 0
  deriving DecidableEq, Repr

/-- The title check inside `BaseScraper.filter_jobs`:
`any(title.lower() in job.title.lower() for title in self.job_titles)`. -/
def titleMatch (job_titles : List String) (jobTitle : String) : Bool :=
  job_titles.any (fun t => containsCI t jobTitle)

/-- The age check inside `BaseScraper.filter_jobs`: a job with a present
`posted_date` is discarded when `days_since_posted(posted_date)` exceeds
`max_age_days`; an absent date is never checked. -/
def jobTooOld (max_age_days now : Int) (j : Job) : Bool :=
  match j.posted_date with
  | none => false
  | some _ => decide ((max_age_days : WithTop Int) < days_since_posted now j.posted_date)

/-- The flag assignment inside `BaseScraper.filter_jobs`: normalize the raw
location transiently and set `is_eu` / `is_uae`; no other field changes. -/
def setFlags (j : Job) : Job :=
  let normalized := normalize_location j.location
  { j with is_eu := is_eu_location normalized, is_uae := is_uae_location normalized }

/-- The filtering loop of `BaseScraper.filter_jobs` (before the sort):
skip on title mismatch, skip on stale `posted_date`, otherwise set the
location flags and keep the job. -/
def filterLoop (job_titles : List String) (max_age_days now : Int) : List Job → List Job
  | [] => []
  | j :: rest =>
    if ! titleMatch job_titles j.title then filterLoop job_titles max_age_days now rest
    else if jobTooOld max_age_days now j then filterLoop job_titles max_age_days now rest
    else setFlags j :: filterLoop job_titles max_age_days now rest

/-- The sort key of `BaseScraper.filter_jobs`:
`lambda j: (not j.is_eu, not j.is_uae)`. -/
def sortKey (j : Job) : Bool × Bool := (! j.is_eu, ! j.is_uae)

/-- Python's `≤` on pairs of booleans (`False < True`, lexicographic),
the total preorder under which `list.sort(key=...)` stably sorts. -/
def pairLE (a b : Bool × Bool) : Bool :=
  (! a.1 && b.1) || (a.1 == b.1 && (! a.2 || b.2))

/-- Key comparison between two jobs. -/
def jobLE (j₁ j₂ : Job) : Bool := pairLE (sortKey j₁) (sortKey j₂)

/-- `filtered.sort(key=lambda j: (not j.is_eu, not j.is_uae))`: Python's
stable sort, embedded as the (stable) `List.mergeSort`. -/
def sortJobs (l : List Job) : List Job := l.mergeSort jobLE

/-- `BaseScraper.filter_jobs`: filter, flag, then stable tiered sort. -/
def filter_jobs (job_titles : List String) (max_age_days now : Int)
    (jobs : List Job) : List Job :=
  sortJobs (filterLoop job_titles max_age_days now jobs)

/-- The predicate equivalent to "the loop keeps this job": title matches and
the job is not too old. -/
def keepJob (job_titles : List String) (max_age_days now : Int) (j : Job) : Bool :=
  titleMatch job_titles j.title && ! jobTooOld max_age_days now j

/-- An adapter as `scrape()` sees it: `fetch_jobs` and per-item `parse_job`
may each raise (modelled with `Except`); `parse_job` may also signal "drop
this item" by returning `none`. -/
structure Adapter (Raw : Type) where
  fetch_jobs : Except String (List Raw)
  parse_job : Raw → Except String (Option Job)

/-- The parse loop inside `BaseScraper.scrape`: append each successfully
parsed job, propagate a raised error. -/
def parseLoop {Raw : Type} (a : Adapter Raw) : List Raw → List Job → Except String (List Job)
  | [], acc => .ok acc
  | r :: rest, acc =>
    match a.parse_job r with
    | .error e => .error e
    | .ok none => parseLoop a rest acc
    | .ok (some j) => parseLoop a rest (acc ++ [j])

/-- `BaseScraper.scrape`: fetch, parse, filter — all inside one `try`;
any raised error is caught at this boundary and converted to `[]`. -/
def scrape {Raw : Type} (job_titles : List String) (max_age_days now : Int)
    (a : Adapter Raw) : List Job :=
  match a.fetch_jobs with
  | .error _ => []
  | .ok raw =>
    match parseLoop a raw [] with
    | .error _ => []
    | .ok jobs => filter_jobs job_titles max_age_days now jobs

/-- A persisted row of the `jobs` table (`JobModel` in `job_store.py`):
the scraped fields plus the store's own mutable state. -/
structure JobRow where
  id : String
  title : String
  company : String
  location : String
  description : String
  url : String
  posted_date : Option Int
  requirements : List String
  keywords : List String
  is_eu : Bool
  is_uae : Bool
  scraped_at : Int
  notified : Bool
  notified_at : Int
  resume_generated : Bool
  resume_path : Option String
  deriving DecidableEq, Repr

/-- The store's state: the committed rows in insertion order. -/
abbrev Store := List JobRow

/-- The row `JobStore.add_job` builds for a record: scraped fields copied,
store-state columns at their model defaults (`notified=False`,
`notified_at=now`, `resume_generated=False`, `resume_path` unset). -/
def mkRow (now : Int) (j : Job) : JobRow :=
  { id := j.id, title := j.title, company := j.company, location := j.location,
    description := j.description, url := j.url, posted_date := j.posted_date,
    requirements := j.requirements, keywords := j.keywords,
    is_eu := j.is_eu, is_uae := j.is_uae, scraped_at := j.scraped_at,
    notified := false, notified_at := now,
    resume_generated := false, resume_path := none }

/-- Whether some committed row already has this id (the
`query(JobModel).filter_by(id=...).first()` existence check). -/
def containsId (s : Store) (jid : String) : Bool :=
  s.any (fun r => r.id == jid)

/-- `JobStore.add_job` on the success path: insert iff no existing row shares
the record's id; returns the `(inserted, new state)` pair. -/
def add_job (now : Int) (s : Store) (j : Job) : Bool × Store :=
  if containsId s j.id then (false, s)
  else (true, s ++ [mkRow now j])

/-- `JobStore.add_job` with its transaction boundary made explicit: the
commit of a fresh insert can fail (`commitFails`), in which case the staged
insert is rolled back — the committed rows are returned unchanged — and the
error is re-raised (`Except.error`).  A duplicate returns `False` before any
write is attempted. -/
def add_job_tx (commitFails : Bool) (now : Int) (s : Store) (j : Job) :
    Except String Bool × Store :=
  if containsId s j.id then (.ok false, s)
  else if commitFails then (.error "commit failed", s)
  else (.ok true, s ++ [mkRow now j])

/-- `JobStore.add_jobs`: fold `add_job` over the list, counting inserts. -/
def add_jobs (now : Int) (s : Store) (jobs : List Job) : Nat × Store :=
  match jobs with
  | [] => (0, s)
  | j :: rest =>
    let (inserted, s1) := add_job now s j
    let (n, s2) := add_jobs now s1 rest
    (if inserted then n + 1 else n, s2)

/-- `JobStore.get_unnotified_jobs`: rows with `notified=False`. -/
def get_unnotified_jobs (s : Store) : List JobRow :=
  s.filter (fun r => ! r.notified)

/-- `JobStore.mark_as_notified`: batched `UPDATE ... WHERE id IN ids`
setting `notified=True` and refreshing `notified_at`. -/
def mark_as_notified (now : Int) (job_ids : List String) (s : Store) : Store :=
  s.map (fun r =>
    if job_ids.contains r.id then { r with notified := true, notified_at := now } else r)

/-- `JobStore.mark_resume_generated`: update the first row with this id (the
primary key makes it unique); no-op when the id is absent. -/
def mark_resume_generated (job_id : String) (resume_path : String) : Store → Store
  | [] => []
  | r :: rest =>
    if r.id == job_id then
      { r with resume_generated := true, resume_path := some resume_path } :: rest
    else r :: mark_resume_generated job_id resume_path rest

/-- The record returned by `JobStore.get_stats`. -/
structure Stats where
  total_jobs : Nat
  eu_jobs : Nat
  uae_jobs : Nat
  notified : Nat
  pending : Nat
  resumes_generated : Nat
  deriving DecidableEq, Repr

/-- `JobStore.get_stats`: the six counts over the committed rows. -/
def get_stats (s : Store) : Stats :=
  { total_jobs := s.length,
    eu_jobs := (s.filter (fun r => r.is_eu)).length,
    uae_jobs := (s.filter (fun r => r.is_uae)).length,
    notified := (s.filter (fun r => r.notified)).length,
    pending := (s.filter (fun r => ! r.notified)).length,
    resumes_generated := (s.filter (fun r => r.resume_generated)).length }

/-- Read a maximal run of decimal digits (the greedy `(\d+)` group),
accumulating its value; returns the value and the rest of the input. -/
def readDigits : List Char → Nat → Nat × List Char
  | [], acc => (acc, [])
  | c :: rest, acc =>
    if c.isDigit then readDigits rest (acc * 10 + (c.toNat - 48))
    else (acc, c :: rest)

/-- Skip a (possibly empty) run of whitespace (the `\s*` pieces). -/
def skipSpaces : List Char → List Char
  | [] => []
  | c :: rest => if c.isWhitespace then skipSpaces rest else c :: rest

/-- Try each unit name of the alternation in order; on success return the
matched unit and the remaining input. -/
def tryUnit (units : List (List Char)) (s : List Char) : Option (List Char × List Char) :=
  match units with
  | [] => none
  | u :: rest =>
    if u.isPrefixOf s then some (u, s.drop u.length) else tryUnit rest s

/-- The part of the pattern after the digit group: `\s*(unit alternation)s?\s*ago`.
Returns the matched unit on success. -/
def relTail (units : List (List Char)) (s : List Char) : Option (List Char) :=
  match tryUnit units (skipSpaces s) with
  | none => none
  | some (u, afterUnit) =>
    let afterS := match afterUnit with
      | 's' :: t => t
      | other => other
    if [ 'a', 'g', 'o'].isPrefixOf (skipSpaces afterS) then some u else none

/-- Attempt the pattern `(\d+)\s*(unit alternation)s?\s*ago` anchored at the
start of the input, returning the number and the matched unit. -/
def matchRelAt (units : List (List Char)) (s : List Char) : Option (Nat × List Char) :=
  match s with
  | [] => none
  | c :: rest =>
    if c.isDigit then
      let digits := readDigits rest (c.toNat - 48)
      (relTail units digits.2).map (fun u => (digits.1, u))
    else none

/-- `re.search` for the relative-date pattern: try the pattern at each start
position from the left, returning the leftmost match. -/
def searchRel (units : List (List Char)) : List Char → Option (Nat × List Char)
  | [] => none
  | c :: rest =>
    match matchRelAt units (c :: rest) with
    | some m => some m
    | none => searchRel units rest

/-- `LinkedInScraper._parse_relative_date` (linkedin_scraper.py):
`'just now'`/`'today'` map to now; otherwise the pattern
`(\d+)\s*(day|week|month|hour)s?\s*ago` maps to now minus the duration
(months counted as 30 days); anything else yields no date. -/
def linkedin_parse_relative_date (now : Int) (date_str : String) : Option Int :=
  let date_lower := lowerChars date_str.data
  if hasSubstr "just now".data date_lower || hasSubstr "today".data date_lower then
    some now
  else
    match searchRel ["day".data, "week".data, "month".data, "hour".data] date_lower with
    | some (num, unit) =>
      if unit = "hour".data then some (now - (num : Int) * 3600)
      else if unit = "day".data then some (now - (num : Int) * 86400)
      else if unit = "week".data then some (now - (num : Int) * 604800)
      else if unit = "month".data then some (now - (num : Int) * 2592000)
      else none
    | none => none

/-- `GoogleScraper._parse_date` (google_scraper.py): `'today'`/`'just'` map
to now, `'yesterday'` to now minus one day; otherwise the pattern
`(\d+)\s*(day|week|month)s?\s*ago` maps to now minus the duration (months
counted as 30 days); anything else yields no date. -/
def google_parse_date (now : Int) (date_str : String) : Option Int :=
  let date_lower := lowerChars date_str.data
  if hasSubstr "today".data date_lower || hasSubstr "just".data date_lower then
    some now
  else if hasSubstr "yesterday".data date_lower then
    some (now - 86400)
  else
    match searchRel ["day".data, "week".data, "month".data] date_lower with
    | some (num, unit) =>
      if unit = "day".data then some (now - (num : Int) * 86400)
      else if unit = "week".data then some (now - (num : Int) * 604800)
      else if unit = "month".data then some (now - (num : Int) * 2592000)
      else none
    | none => none

/-- A string and its lower-cased form: the embedding's `str.lower`. -/
def lowerStr (s : String) : String := ⟨lowerChars s.data⟩

/-- Numeric tier of a job under the sort key `(not is_eu, not is_uae)`:
0 = EU∧UAE, 1 = EU only, 2 = UAE only, 3 = other.  The lexicographic order
on the boolean pair coincides with the numeric order of this rank. -/
def rank (j : Job) : Nat := 2 * (! j.is_eu).toNat + (! j.is_uae).toNat

/-- Decimal value of a digit string, as accumulated by `readDigits`. -/
def digitsVal (ds : List Char) : Nat :=
  ds.foldl (fun a c => a * 10 + (c.toNat - 48)) 0

/-! ### Concrete material for examples, witnesses and counterexamples -/

/-- A job literal used by concrete examples. -/
def exJob (i t loc : String) : Job :=
  { id := i, title := t, company := "Co", location := loc, description := "", url := "" }

/-- An adapter whose `fetch_jobs` raises. -/
def badFetchAdapter : Adapter Unit :=
  { fetch_jobs := .error "network down", parse_job := fun _ => .ok none }

/-- An adapter whose per-item `parse_job` raises. -/
def badParseAdapter : Adapter Unit :=
  { fetch_jobs := .ok [()], parse_job := fun _ => .error "parse blew up" }

/-- Flag-pattern records of the spec's sort example: A other, B EU, C UAE,
D EU, in that input order. -/
def recA : Job := exJob "A" "Data Engineer" "other"

/-- EU record B of the sort example. -/
def recB : Job := { exJob "B" "Data Engineer" "eu" with is_eu := true }

/-- UAE record C of the sort example. -/
def recC : Job := { exJob "C" "Data Engineer" "uae" with is_uae := true }

/-- EU record D of the sort example. -/
def recD : Job := { exJob "D" "Data Engineer" "eu" with is_eu := true }


/-! ### Helper lemmas -/

/-- The filter loop is `filter` by the keep-predicate followed by the flag
assignment. -/
theorem filterLoop_eq (job_titles : List String) (max_age_days now : Int)
    (l : List Job) :
    filterLoop job_titles max_age_days now l
      = (l.filter (keepJob job_titles max_age_days now)).map setFlags := by
  induction l with
  | nil => rfl
  | cons j rest ih =>
    by_cases h₁ : titleMatch job_titles j.title = true
    · by_cases h₂ : jobTooOld max_age_days now j = true
      · simp [filterLoop, keepJob, h₁, h₂, ih]
      · simp [filterLoop, keepJob, h₁, h₂, ih]
    · simp [filterLoop, keepJob, h₁, ih]

/-- If parsing any reachable raw item raises, the whole parse loop raises. -/
theorem parseLoop_error {Raw : Type} (a : Adapter Raw) :
    ∀ (raws : List Raw) (acc : List Job),
      (∃ r ∈ raws, ∃ e, a.parse_job r = .error e) →
      ∃ e', parseLoop a raws acc = .error e' := by
  intro raws
  induction raws with
  | nil =>
    intro acc h
    obtain ⟨r, hr, _⟩ := h
    cases hr
  | cons r rest ih =>
    intro acc h
    obtain ⟨r', hr', e, he⟩ := h
    cases hpj : a.parse_job r with
    | error e₀ => exact ⟨e₀, by simp [parseLoop, hpj]⟩
    | ok o =>
      have hmem : r' ∈ rest := by
        rcases List.mem_cons.mp hr' with rfl | hmem
        · rw [hpj] at he; cases he
        · exact hmem
      cases o with
      | none =>
        obtain ⟨e', he'⟩ := ih acc ⟨r', hmem, e, he⟩
        exact ⟨e', by simp [parseLoop, hpj, he']⟩
      | some j =>
        obtain ⟨e', he'⟩ := ih (acc ++ [j]) ⟨r', hmem, e, he⟩
        exact ⟨e', by simp [parseLoop, hpj, he']⟩

/-- The empty pattern is a substring of everything (as in Python). -/
theorem hasSubstr_nil (h : List Char) : hasSubstr [] h = true := by
  cases h <;> simp [hasSubstr]

/-- A pattern occurring verbatim in the middle of a string is found. -/
theorem hasSubstr_of_middle (n l₁ l₂ : List Char) :
    hasSubstr n (l₁ ++ n ++ l₂) = true := by
  induction l₁ with
  | nil =>
    cases hn : n with
    | nil => simpa using hasSubstr_nil l₂
    | cons c cs =>
      have hpre : List.isPrefixOf (c :: cs) ((c :: cs) ++ l₂) = true := by
        rw [List.isPrefixOf_iff_prefix]
        exact List.prefix_append _ _
      simp only [List.cons_append] at hpre
      simp only [List.nil_append, List.cons_append, hasSubstr]
      simp [hpre]
  | cons a l ih =>
    simp only [List.cons_append, hasSubstr]
    simp only [List.append_assoc] at ih ⊢
    simp [ih]

/-- `Char.ofNat` on a valid code point round-trips through `toNat`. -/
theorem char_toNat_ofNat_valid {n : Nat} (h : Nat.isValidChar n) :
    (Char.ofNat n).toNat = n := by
  rw [Char.ofNat, dif_pos h]
  simp [Char.ofNatAux, Char.toNat, UInt32.ofNat', UInt32.toNat, BitVec.toNat_ofNatLt]

/-- `Char.toLower` is idempotent. -/
theorem toLower_idem (c : Char) : c.toLower.toLower = c.toLower := by
  unfold Char.toLower
  by_cases h : c.toNat ≥ 65 ∧ c.toNat ≤ 90
  · rw [if_pos h]
    have hv : Nat.isValidChar (c.toNat + 32) := Or.inl (by omega)
    have hn : (Char.ofNat (c.toNat + 32)).toNat = c.toNat + 32 := char_toNat_ofNat_valid hv
    rw [if_neg]
    rw [hn]
    omega
  · rw [if_neg h, if_neg h]

/-- Lower-casing a character list is idempotent. -/
theorem lowerChars_idem (l : List Char) : lowerChars (lowerChars l) = lowerChars l := by
  simp only [lowerChars, List.map_map]
  exact List.map_congr_left (fun c _ => toLower_idem c)

/-- `containsCI` ignores the case of the haystack. -/
theorem containsCI_lowerStr (needle s : String) :
    containsCI needle (lowerStr s) = containsCI needle s := by
  simp [containsCI, lowerStr, lowerChars_idem]

/-- The sort comparison is exactly the rank comparison. -/
theorem jobLE_eq_rank (j₁ j₂ : Job) : jobLE j₁ j₂ = decide (rank j₁ ≤ rank j₂) := by
  cases h₁ : j₁.is_eu <;> cases h₂ : j₁.is_uae <;> cases h₃ : j₂.is_eu <;>
    cases h₄ : j₂.is_uae <;> simp [jobLE, pairLE, sortKey, rank, h₁, h₂, h₃, h₄]

/-- `jobLE` is transitive. -/
theorem jobLE_trans (a b c : Job) : jobLE a b → jobLE b c → jobLE a c := by
  simp only [jobLE_eq_rank, decide_eq_true_eq]
  exact Nat.le_trans

/-- `jobLE` is total. -/
theorem jobLE_total (a b : Job) : jobLE a b || jobLE b a := by
  simp only [jobLE_eq_rank]
  rcases Nat.le_total (rank a) (rank b) with h | h <;> simp [h]

/-- Stability: sorting does not change the subsequence of jobs of any fixed
rank. -/
theorem sortJobs_filter_rank (l : List Job) (i : Nat) :
    (sortJobs l).filter (fun j => rank j == i) = l.filter (fun j => rank j == i) := by
  have hpair : (l.filter (fun j => rank j == i)).Pairwise (fun a b => jobLE a b = true) := by
    apply List.pairwise_of_forall_mem_list
    intro a ha b hb
    have hra : rank a = i := by simpa using (List.mem_filter.mp ha).2
    have hrb : rank b = i := by simpa using (List.mem_filter.mp hb).2
    rw [jobLE_eq_rank, hra, hrb]
    simp
  have hsub : List.Sublist (l.filter (fun j => rank j == i)) (sortJobs l) :=
    List.sublist_mergeSort jobLE_trans jobLE_total hpair (List.filter_sublist l)
  have hself : (l.filter (fun j => rank j == i)).filter (fun j => rank j == i)
      = l.filter (fun j => rank j == i) :=
    List.filter_eq_self.mpr (fun a ha => (List.mem_filter.mp ha).2)
  have hsub₂ : List.Sublist (l.filter (fun j => rank j == i))
      ((sortJobs l).filter (fun j => rank j == i)) := by
    have := hsub.filter (fun j => rank j == i)
    rwa [hself] at this
  have hperm : List.Perm ((sortJobs l).filter (fun j => rank j == i))
      (l.filter (fun j => rank j == i)) :=
    (List.mergeSort_perm l jobLE).filter _
  exact (hsub₂.eq_of_length hperm.length_eq.symm).symm

/-- A list sorted by rank is the concatenation of its four rank classes. -/
theorem sorted_rank_partition :
    ∀ o : List Job, o.Pairwise (fun a b => rank a ≤ rank b) →
      o = o.filter (fun j => rank j == 0) ++ o.filter (fun j => rank j == 1)
        ++ o.filter (fun j => rank j == 2) ++ o.filter (fun j => rank j == 3) := by
  intro o
  induction o with
  | nil => simp
  | cons j rest ih =>
    intro h
    rw [List.pairwise_cons] at h
    obtain ⟨hj, hrest⟩ := h
    have hr := ih hrest
    have hlt : rank j < 4 := by
      unfold rank
      cases j.is_eu <;> cases j.is_uae <;> simp
    have hcases : rank j = 0 ∨ rank j = 1 ∨ rank j = 2 ∨ rank j = 3 := by omega
    have empty_below : ∀ i : Nat, i < rank j →
        rest.filter (fun x => rank x == i) = [] := by
      intro i hi
      rw [List.filter_eq_nil_iff]
      intro x hx
      have := hj x hx
      simp only [beq_iff_eq]
      omega
    rcases hcases with hk | hk | hk | hk
    · simp only [List.filter_cons, hk, beq_iff_eq, reduceCtorEq]
      norm_num
      conv_lhs => rw [hr]
      simp [List.append_assoc]
    · have h0 := empty_below 0 (by omega)
      rw [h0] at hr
      simp only [List.nil_append] at hr
      simp only [List.filter_cons, hk, beq_iff_eq, reduceCtorEq]
      norm_num
      rw [h0]
      simp only [List.nil_append]
      exact congrArg (List.cons j) (hr.trans (by simp [List.append_assoc]))
    · have h0 := empty_below 0 (by omega)
      have h1 := empty_below 1 (by omega)
      rw [h0, h1] at hr
      simp only [List.nil_append] at hr
      simp only [List.filter_cons, hk, beq_iff_eq, reduceCtorEq]
      norm_num
      rw [h0, h1]
      simp only [List.nil_append]
      exact congrArg (List.cons j) (hr.trans (by simp [List.append_assoc]))
    · have h0 := empty_below 0 (by omega)
      have h1 := empty_below 1 (by omega)
      have h2 := empty_below 2 (by omega)
      rw [h0, h1, h2] at hr
      simp only [List.nil_append] at hr
      simp only [List.filter_cons, hk, beq_iff_eq, reduceCtorEq]
      norm_num
      rw [h0, h1, h2]
      simp only [List.nil_append]
      exact congrArg (List.cons j) (hr.trans (by simp [List.append_assoc]))

/-- The sort is the stable four-way partition by rank. -/
theorem sortJobs_four_tiers (l : List Job) :
    sortJobs l = l.filter (fun j => rank j == 0) ++ l.filter (fun j => rank j == 1)
      ++ l.filter (fun j => rank j == 2) ++ l.filter (fun j => rank j == 3) := by
  have hs : (sortJobs l).Pairwise (fun a b => rank a ≤ rank b) := by
    have hp := List.sorted_mergeSort jobLE_trans jobLE_total l
    refine hp.imp ?_
    intro a b hab
    rw [jobLE_eq_rank] at hab
    exact of_decide_eq_true hab
  have hpart := sorted_rank_partition (sortJobs l) hs
  rw [hpart, sortJobs_filter_rank, sortJobs_filter_rank, sortJobs_filter_rank,
    sortJobs_filter_rank]

/-! ### Claim theorems -/

/-- C1: for every adapter, an exception escaping `fetch_jobs` or the
per-item parse loop is caught at the `scrape()` boundary and converted to an
empty result; `scrape` is a total function of the adapter in the embedding,
so no raised error from a single source reaches the caller. -/
theorem c1_scrape_soft_fail {Raw : Type} (job_titles : List String)
    (max_age_days now : Int) (a : Adapter Raw) :
    (∀ e, a.fetch_jobs = .error e → scrape job_titles max_age_days now a = []) ∧
    (∀ raws, a.fetch_jobs = .ok raws →
      (∃ r ∈ raws, ∃ e, a.parse_job r = .error e) →
      scrape job_titles max_age_days now a = []) := by
  constructor
  · intro e he
    simp [scrape, he]
  · intro raws hok hex
    obtain ⟨e', he'⟩ := parseLoop_error a raws [] hex
    simp [scrape, hok, he']

/-- Witness for C1: a raising fetch and a raising parse both yield `[]`. -/
theorem c1_scrape_soft_fail_witness :
    scrape ["Data Engineer"] 30 0 badFetchAdapter = [] ∧
    scrape ["Data Engineer"] 30 0 badParseAdapter = [] :=
  ⟨(c1_scrape_soft_fail ["Data Engineer"] 30 0 badFetchAdapter).1 "network down" rfl,
   (c1_scrape_soft_fail ["Data Engineer"] 30 0 badParseAdapter).2 [()] rfl
     ⟨(), by simp, "parse blew up", rfl⟩⟩

/-- C2 counterexample: a job whose location matches both vocabularies
("Dubai, Germany") has both flags set, and the key `(not eu, not uae)`
sorts it *before* the plain EU jobs — the output is not the claimed
three-tier partition (EU tier first, preserving input order). -/
theorem c2_counterexample :
    sortJobs [setFlags (exJob "b" "Data Engineer" "Berlin, Germany"),
              setFlags (exJob "x" "Data Engineer" "Dubai, Germany")]
      ≠ ([setFlags (exJob "b" "Data Engineer" "Berlin, Germany"),
          setFlags (exJob "x" "Data Engineer" "Dubai, Germany")].filter (fun j => j.is_eu))
        ++ ([setFlags (exJob "b" "Data Engineer" "Berlin, Germany"),
          setFlags (exJob "x" "Data Engineer" "Dubai, Germany")].filter
            (fun j => j.is_uae && ! j.is_eu))
        ++ ([setFlags (exJob "b" "Data Engineer" "Berlin, Germany"),
          setFlags (exJob "x" "Data Engineer" "Dubai, Germany")].filter
            (fun j => ! j.is_eu && ! j.is_uae)) := by
  rw [sortJobs_four_tiers]
  decide

/-- C2 (amended): provided no record has both `is_eu` and `is_uae` set, the
pipeline's sort is the stable three-tier partition EU, then UAE, then other,
preserving each tier's input order; the spec's concrete example
[A(other), B(EU), C(UAE), D(EU)] ↦ [B, D, C, A] holds both for the sort
alone and through `filter_jobs`.  (A record with both flags set forms a
fourth, frontmost tier instead.) -/
theorem c2_tiered_stable_sort :
    (∀ l : List Job, (∀ j ∈ l, ¬(j.is_eu = true ∧ j.is_uae = true)) →
      sortJobs l
        = l.filter (fun j => j.is_eu) ++ l.filter (fun j => j.is_uae && ! j.is_eu)
          ++ l.filter (fun j => ! j.is_eu && ! j.is_uae)) ∧
    sortJobs [recA, recB, recC, recD] = [recB, recD, recC, recA] ∧
    filter_jobs ["Data Engineer"] 30 0
        [exJob "a" "Data Engineer" "New York, USA",
         exJob "b" "Data Engineer" "Berlin, Germany",
         exJob "c" "Data Engineer" "Dubai",
         exJob "d" "Senior Data Engineer II" "Paris, France"]
      = [setFlags (exJob "b" "Data Engineer" "Berlin, Germany"),
         setFlags (exJob "d" "Senior Data Engineer II" "Paris, France"),
         setFlags (exJob "c" "Data Engineer" "Dubai"),
         setFlags (exJob "a" "Data Engineer" "New York, USA")] := by
  refine ⟨?_, ?_, ?_⟩
  · intro l hl
    rw [sortJobs_four_tiers]
    have h0 : l.filter (fun j => rank j == 0) = [] := by
      rw [List.filter_eq_nil_iff]
      intro j hj
      have hx := hl j hj
      cases he : j.is_eu <;> cases hu : j.is_uae <;> simp_all [rank]
    have h1 : l.filter (fun j => rank j == 1) = l.filter (fun j => j.is_eu) :=
      List.filter_congr (fun j hj => by
        have hx := hl j hj
        cases he : j.is_eu <;> cases hu : j.is_uae <;> simp_all [rank])
    have h2 : l.filter (fun j => rank j == 2) = l.filter (fun j => j.is_uae && ! j.is_eu) :=
      List.filter_congr (fun j hj => by
        cases he : j.is_eu <;> cases hu : j.is_uae <;> simp [rank, he, hu])
    have h3 : l.filter (fun j => rank j == 3) = l.filter (fun j => ! j.is_eu && ! j.is_uae) :=
      List.filter_congr (fun j hj => by
        cases he : j.is_eu <;> cases hu : j.is_uae <;> simp [rank, he, hu])
    rw [h0, h1, h2, h3, List.nil_append]
  · rw [sortJobs_four_tiers]
    decide
  · rw [filter_jobs, sortJobs_four_tiers]
    decide

/-- Witness for C2: the three-tier partition instantiated at a concrete
flag-exclusive list. -/
theorem c2_tiered_stable_sort_witness :
    sortJobs [recB, recC, recA]
      = [recB, recC, recA].filter (fun j => j.is_eu)
        ++ [recB, recC, recA].filter (fun j => j.is_uae && ! j.is_eu)
        ++ [recB, recC, recA].filter (fun j => ! j.is_eu && ! j.is_uae) :=
  c2_tiered_stable_sort.1 [recB, recC, recA] (by decide)

/-- The age check in terms of the floored day count, when a date is
present. -/
theorem jobTooOld_some (max_age_days now d : Int) (j : Job)
    (h : j.posted_date = some d) :
    jobTooOld max_age_days now j = decide (max_age_days < (now - d).fdiv 86400) := by
  simp only [jobTooOld, h, days_since_posted]
  rw [decide_eq_decide]
  exact WithTop.coe_lt_coe

/-- Membership in the pipeline's output: exactly the kept jobs, flags set. -/
theorem mem_filter_jobs_iff (job_titles : List String) (max_age_days now : Int)
    (jobs : List Job) (j' : Job) :
    j' ∈ filter_jobs job_titles max_age_days now jobs ↔
      ∃ j ∈ jobs, keepJob job_titles max_age_days now j = true ∧ j' = setFlags j := by
  rw [filter_jobs, sortJobs, List.mem_mergeSort, filterLoop_eq]
  constructor
  · intro h
    obtain ⟨a, ha, rfl⟩ := List.mem_map.mp h
    exact ⟨a, (List.mem_filter.mp ha).1, (List.mem_filter.mp ha).2, rfl⟩
  · rintro ⟨a, ha, hk, rfl⟩
    exact List.mem_map.mpr ⟨a, List.mem_filter.mpr ⟨ha, hk⟩, rfl⟩

/-- C3: the filter keeps a job iff some configured title occurs
case-insensitively in the job title and the posted date is absent or at most
`max_age_days` old; at the boundary, age exactly `max_age_days` is kept,
`max_age_days + 1` is dropped, and an absent date is always kept. -/
theorem c3_filter_criteria (job_titles : List String) (max_age_days now : Int) :
    (∀ (jobs : List Job) (j' : Job),
      j' ∈ filter_jobs job_titles max_age_days now jobs ↔
        ∃ j ∈ jobs, keepJob job_titles max_age_days now j = true ∧ j' = setFlags j) ∧
    (∀ j : Job, keepJob job_titles max_age_days now j = true ↔
      ((∃ t ∈ job_titles, containsCI t j.title = true) ∧
        (j.posted_date = none ∨
          ∃ d, j.posted_date = some d ∧ (now - d).fdiv 86400 ≤ max_age_days))) ∧
    (∀ j : Job, titleMatch job_titles j.title = true →
      j.posted_date = some (now - max_age_days * 86400) →
      keepJob job_titles max_age_days now j = true) ∧
    (∀ j : Job, j.posted_date = some (now - (max_age_days + 1) * 86400) →
      keepJob job_titles max_age_days now j = false) ∧
    (∀ j : Job, titleMatch job_titles j.title = true → j.posted_date = none →
      keepJob job_titles max_age_days now j = true) := by
  refine ⟨mem_filter_jobs_iff job_titles max_age_days now, ?_, ?_, ?_, ?_⟩
  · intro j
    rw [keepJob, Bool.and_eq_true, titleMatch, List.any_eq_true]
    cases hp : j.posted_date with
    | none => simp [jobTooOld, hp]
    | some d =>
      rw [jobTooOld_some max_age_days now d j hp]
      simp [hp, Int.not_lt]
  · intro j ht hp
    have harith : now - (now - max_age_days * 86400) = max_age_days * 86400 := by ring
    rw [keepJob, ht, Bool.true_and, jobTooOld_some max_age_days now _ j hp, harith,
      Int.mul_fdiv_cancel max_age_days (by norm_num)]
    simp
  · intro j hp
    have harith : now - (now - (max_age_days + 1) * 86400) = (max_age_days + 1) * 86400 := by
      ring
    rw [keepJob, jobTooOld_some max_age_days now _ j hp, harith,
      Int.mul_fdiv_cancel (max_age_days + 1) (by norm_num)]
    simp
  · intro j ht hp
    simp [keepJob, jobTooOld, hp, ht]

/-- Witness for C3: boundary instances with `max_age_days = 30` and
`now = 86400 * 100`. -/
theorem c3_filter_criteria_witness :
    keepJob ["Data Engineer"] 30 8640000
      { exJob "p" "Data Engineer" "Berlin" with posted_date := some 6048000 } = true ∧
    keepJob ["Data Engineer"] 30 8640000
      { exJob "p" "Data Engineer" "Berlin" with posted_date := some 5961600 } = false ∧
    keepJob ["Data Engineer"] 30 8640000 (exJob "p" "Data Engineer" "Berlin") = true :=
  ⟨(c3_filter_criteria ["Data Engineer"] 30 8640000).2.2.1 _ (by decide) (by decide),
   (c3_filter_criteria ["Data Engineer"] 30 8640000).2.2.2.1 _ (by decide),
   (c3_filter_criteria ["Data Engineer"] 30 8640000).2.2.2.2 _ (by decide) rfl⟩

/-- A duplicate id makes `add_job` a no-op returning `false`. -/
theorem add_job_dup (now : Int) (s : Store) (j : Job)
    (h : containsId s j.id = true) : add_job now s j = (false, s) := by
  rw [add_job, h]
  simp

/-- A fresh id makes `add_job` append the new row and return `true`. -/
theorem add_job_new (now : Int) (s : Store) (j : Job)
    (h : containsId s j.id = false) :
    add_job now s j = (true, s ++ [mkRow now j]) := by
  rw [add_job, h]
  simp

/-- After `add_job`, the store always contains the record's id. -/
theorem containsId_after_add (now : Int) (s : Store) (j : Job) :
    containsId (add_job now s j).2 j.id = true := by
  by_cases h : containsId s j.id = true
  · rw [add_job_dup now s j h]
    exact h
  · have hb : containsId s j.id = false := by simpa using h
    rw [add_job_new now s j hb]
    simp only [containsId, List.any_append]
    simp [mkRow]

/-- C4: `add_job` inserts iff no existing row shares the id; a second add of
the same record is a no-op returning `false`, the state and `stats().total`
are unchanged, and any record with the same id (regardless of content) is
likewise rejected. -/
theorem c4_idempotent_dedup (now now₂ : Int) (s : Store) (j : Job) :
    ((add_job now s j).1 = true ↔ containsId s j.id = false) ∧
    (containsId s j.id = false →
      (add_job now s j).1 = true ∧
      (add_job now₂ (add_job now s j).2 j).1 = false ∧
      (add_job now₂ (add_job now s j).2 j).2 = (add_job now s j).2 ∧
      (get_stats (add_job now₂ (add_job now s j).2 j).2).total_jobs
        = (get_stats (add_job now s j).2).total_jobs) ∧
    (∀ j₂ : Job, j₂.id = j.id → (add_job now₂ (add_job now s j).2 j₂).1 = false) := by
  refine ⟨?_, ?_, ?_⟩
  · by_cases h : containsId s j.id = true
    · rw [add_job_dup now s j h]
      simp [h]
    · have hb : containsId s j.id = false := by simpa using h
      rw [add_job_new now s j hb]
      simp [hb]
  · intro h
    have hc : containsId (add_job now s j).2 j.id = true := containsId_after_add now s j
    rw [add_job_dup now₂ (add_job now s j).2 j hc]
    exact ⟨by rw [add_job_new now s j h], rfl, rfl, rfl⟩
  · intro j₂ hid
    have hc : containsId (add_job now s j).2 j₂.id = true := by
      rw [hid]
      exact containsId_after_add now s j
    rw [add_job_dup now₂ (add_job now s j).2 j₂ hc]

/-- Witness for C4: double insert of one record, then a same-id record with
different content. -/
theorem c4_idempotent_dedup_witness :
    ((add_job 5 [] (exJob "id1" "Data Engineer" "Berlin")).1 = true ∧
     (add_job 6 (add_job 5 [] (exJob "id1" "Data Engineer" "Berlin")).2
        (exJob "id1" "Data Engineer" "Berlin")).1 = false ∧
     (add_job 6 (add_job 5 [] (exJob "id1" "Data Engineer" "Berlin")).2
        (exJob "id1" "Data Engineer" "Berlin")).2
       = (add_job 5 [] (exJob "id1" "Data Engineer" "Berlin")).2 ∧
     (get_stats (add_job 6 (add_job 5 [] (exJob "id1" "Data Engineer" "Berlin")).2
        (exJob "id1" "Data Engineer" "Berlin")).2).total_jobs
       = (get_stats (add_job 5 [] (exJob "id1" "Data Engineer" "Berlin")).2).total_jobs) ∧
    (add_job 6 (add_job 5 [] (exJob "id1" "Data Engineer" "Berlin")).2
       (exJob "id1" "Data Scientist" "Paris")).1 = false :=
  ⟨(c4_idempotent_dedup 5 6 [] (exJob "id1" "Data Engineer" "Berlin")).2.1 (by decide),
   (c4_idempotent_dedup 5 6 [] (exJob "id1" "Data Engineer" "Berlin")).2.2
     (exJob "id1" "Data Scientist" "Paris") rfl⟩

/-- C5: with the transaction boundary explicit, a commit failure during
`add_job` leaves the committed rows unchanged (single-insert rollback) and
re-raises the error to the caller rather than absorbing it; a duplicate
returns `ok false` before any write, and a successful commit behaves as the
plain `add_job`. -/
theorem c5_add_failure_atomic (now : Int) (s : Store) (j : Job) :
    (add_job_tx true now s j
      = (if containsId s j.id then (Except.ok false, s)
         else (Except.error "commit failed", s))) ∧
    (add_job_tx true now s j).2 = s ∧
    add_job_tx false now s j = (Except.ok (add_job now s j).1, (add_job now s j).2) := by
  refine ⟨?_, ?_, ?_⟩ <;> by_cases h : containsId s j.id = true <;>
    simp [add_job_tx, add_job, h]

/-- Re-marking the same ids changes no id or notified flag. -/
theorem mark_as_notified_idem (u v : Int) (ids : List String) (s : Store) :
    (mark_as_notified v ids (mark_as_notified u ids s)).map (fun r => (r.id, r.notified))
      = (mark_as_notified u ids s).map (fun r => (r.id, r.notified)) := by
  simp only [mark_as_notified, List.map_map]
  apply List.map_congr_left
  intro r _
  by_cases h : r.id ∈ ids <;> simp [Function.comp, h]

/-- `mark_resume_generated` is the identity when the id is absent. -/
theorem mark_resume_generated_absent (jid p : String) :
    ∀ s : Store, (∀ r ∈ s, r.id ≠ jid) → mark_resume_generated jid p s = s := by
  intro s
  induction s with
  | nil => intro _; rfl
  | cons r rest ih =>
    intro h
    have hid : (r.id == jid) = false := by
      simp only [beq_eq_false_iff_ne, ne_eq]
      exact h r (List.mem_cons_self r rest)
    simp only [mark_resume_generated, hid, Bool.false_eq_true, if_false, List.cons.injEq,
      true_and]
    exact ih (fun x hx => h x (List.mem_cons_of_mem r hx))

/-- C6: the round-trip store state of the spec: add two records, notify the
first — the unnotified set is exactly the second's row; mark a résumé for
the second — the résumé count is 1; re-marking is a no-op in effect, and
marking a résumé for an absent id is the identity. -/
theorem c6_round_trip (j1 j2 : Job) (t1 t2 : Int) (path : String)
    (hne : j1.id ≠ j2.id) :
    (add_jobs t1 [] [j1, j2]).1 = 2 ∧
    get_unnotified_jobs (mark_as_notified t2 [j1.id] (add_jobs t1 [] [j1, j2]).2)
      = [mkRow t1 j2] ∧
    (get_stats (mark_resume_generated j2.id path
        (mark_as_notified t2 [j1.id] (add_jobs t1 [] [j1, j2]).2))).resumes_generated = 1 ∧
    (∀ (s : Store) (ids : List String) (u v : Int),
      (mark_as_notified v ids (mark_as_notified u ids s)).map (fun r => (r.id, r.notified))
        = (mark_as_notified u ids s).map (fun r => (r.id, r.notified))) ∧
    (∀ (s : Store) (jid p : String), (∀ r ∈ s, r.id ≠ jid) →
      mark_resume_generated jid p s = s) := by
  have h21 : (j2.id == j1.id) = false := by
    simp only [beq_eq_false_iff_ne, ne_eq]
    exact fun hx => hne hx.symm
  have h12 : (j1.id == j2.id) = false := by
    simp only [beq_eq_false_iff_ne, ne_eq]
    exact hne
  refine ⟨?_, ?_, ?_, fun s ids u v => mark_as_notified_idem u v ids s,
    fun s jid p h => mark_resume_generated_absent jid p s h⟩
  · simp [add_jobs, add_job, containsId, mkRow, h12]
  · simp [add_jobs, add_job, containsId, mkRow, h12, mark_as_notified,
      get_unnotified_jobs, List.contains, List.elem, h21]
  · simp [add_jobs, add_job, containsId, mkRow, h12, mark_as_notified,
      mark_resume_generated, get_stats, List.contains, List.elem, h21]

/-- Witness for C6: the round trip at two concrete records. -/
theorem c6_round_trip_witness :
    ((add_jobs 5 [] [exJob "id1" "Data Engineer" "Berlin",
        exJob "id2" "Data Engineer" "Dubai"]).1 = 2 ∧
     get_unnotified_jobs (mark_as_notified 7 ["id1"]
        (add_jobs 5 [] [exJob "id1" "Data Engineer" "Berlin",
          exJob "id2" "Data Engineer" "Dubai"]).2)
       = [mkRow 5 (exJob "id2" "Data Engineer" "Dubai")] ∧
     (get_stats (mark_resume_generated "id2" "path.docx"
        (mark_as_notified 7 ["id1"]
          (add_jobs 5 [] [exJob "id1" "Data Engineer" "Berlin",
            exJob "id2" "Data Engineer" "Dubai"]).2))).resumes_generated = 1) ∧
    mark_resume_generated "zz" "p" [mkRow 5 (exJob "id2" "Data Engineer" "Dubai")]
      = [mkRow 5 (exJob "id2" "Data Engineer" "Dubai")] :=
  have hmain := c6_round_trip (exJob "id1" "Data Engineer" "Berlin")
    (exJob "id2" "Data Engineer" "Dubai") 5 7 "path.docx" (by decide)
  ⟨⟨hmain.1, hmain.2.1, hmain.2.2.1⟩,
   hmain.2.2.2.2 [mkRow 5 (exJob "id2" "Data Engineer" "Dubai")] "zz" "p" (by decide)⟩

/-- A digit character is unchanged by `Char.toLower`. -/
theorem toLower_of_isDigit (c : Char) (h : c.isDigit = true) : c.toLower = c := by
  have hle : c.val ≤ 57 := by
    simp only [Char.isDigit, ge_iff_le, Bool.and_eq_true, decide_eq_true_eq] at h
    exact h.2
  have hnat : c.toNat ≤ 57 := by
    rw [UInt32.le_def] at hle
    simpa [Char.toNat, UInt32.toNat] using hle
  rw [Char.toLower, if_neg]
  omega

/-- Lower-casing fixes an all-digit string. -/
theorem lowerChars_digits (ds : List Char) (h : ∀ c ∈ ds, c.isDigit = true) :
    lowerChars ds = ds := by
  induction ds with
  | nil => rfl
  | cons d rest ih =>
    simp only [lowerChars, List.map_cons] at ih ⊢
    rw [toLower_of_isDigit d (h d (List.mem_cons_self d rest)),
      ih (fun c hc => h c (List.mem_cons_of_mem d hc))]

/-- A non-digit never `==` a digit. -/
theorem beq_false_of_digit (b c : Char) (hb : b.isDigit = false)
    (hc : c.isDigit = true) : (b == c) = false := by
  cases h : b == c
  · rfl
  · have hbc : b = c := by simpa using h
    rw [hbc, hc] at hb
    cases hb

/-- A pattern starting with a non-digit is found in `ds ++ tail` (with `ds`
all digits) iff it is found in `tail`. -/
theorem hasSubstr_nondigit_head (b : Char) (nb : List Char) (hb : b.isDigit = false) :
    ∀ (ds tail : List Char), (∀ c ∈ ds, c.isDigit = true) →
      hasSubstr (b :: nb) (ds ++ tail) = hasSubstr (b :: nb) tail := by
  intro ds
  induction ds with
  | nil => intro tail _; simp
  | cons d rest ih =>
    intro tail h
    have hd := h d (List.mem_cons_self d rest)
    have hbd := beq_false_of_digit b d hb hd
    simp only [List.cons_append, hasSubstr, List.isPrefixOf, hbd, Bool.false_and,
      Bool.false_or]
    exact ih tail (fun c hc => h c (List.mem_cons_of_mem d hc))

/-- `readDigits` consumes exactly an all-digit prefix. -/
theorem readDigits_append (t : Char) (ts : List Char) (ht : t.isDigit = false) :
    ∀ (ds : List Char) (acc : Nat), (∀ c ∈ ds, c.isDigit = true) →
      readDigits (ds ++ t :: ts) acc
        = (ds.foldl (fun a c => a * 10 + (c.toNat - 48)) acc, t :: ts) := by
  intro ds
  induction ds with
  | nil => intro acc _; simp [readDigits, ht]
  | cons d rest ih =>
    intro acc h
    have hd := h d (List.mem_cons_self d rest)
    simp only [List.cons_append, readDigits, hd, if_true, List.foldl_cons]
    exact ih _ (fun c hc => h c (List.mem_cons_of_mem d hc))

/-- `digitsVal` of a non-empty digit string in accumulator form. -/
theorem digitsVal_cons (d : Char) (ds : List Char) :
    digitsVal (d :: ds) = ds.foldl (fun a c => a * 10 + (c.toNat - 48)) (d.toNat - 48) := by
  simp [digitsVal]

/-- The regex attempt on `digits ++ non-digit tail` is the tail match paired
with the digits' value. -/
theorem matchRelAt_digits (units : List (List Char)) (d : Char) (ds : List Char)
    (hd : d.isDigit = true) (hds : ∀ c ∈ ds, c.isDigit = true)
    (t : Char) (ts : List Char) (ht : t.isDigit = false) :
    matchRelAt units (d :: (ds ++ t :: ts))
      = (relTail units (t :: ts)).map (fun u => (digitsVal (d :: ds), u)) := by
  simp only [matchRelAt, hd, if_true]
  rw [readDigits_append t ts ht ds (d.toNat - 48) hds, digitsVal_cons]

/-- Search succeeds at the leftmost position on a digit-headed input whose
tail matches. -/
theorem searchRel_digits_some (units : List (List Char)) (d : Char) (ds : List Char)
    (hd : d.isDigit = true) (hds : ∀ c ∈ ds, c.isDigit = true)
    (t : Char) (ts : List Char) (ht : t.isDigit = false)
    (u : List Char) (hu : relTail units (t :: ts) = some u) :
    searchRel units ((d :: ds) ++ t :: ts) = some (digitsVal (d :: ds), u) := by
  have hm := matchRelAt_digits units d ds hd hds t ts ht
  rw [hu] at hm
  simp only [Option.map_some'] at hm
  show searchRel units (d :: (ds ++ t :: ts)) = some (digitsVal (d :: ds), u)
  simp only [searchRel, hm]

/-- Search fails everywhere on an all-digit prefix whose tail never
matches. -/
theorem searchRel_digits_none (units : List (List Char)) (t : Char) (ts : List Char)
    (ht : t.isDigit = false) (hnone : relTail units (t :: ts) = none)
    (hrest : searchRel units (t :: ts) = none) :
    ∀ ds : List Char, (∀ c ∈ ds, c.isDigit = true) →
      searchRel units (ds ++ t :: ts) = none := by
  intro ds
  induction ds with
  | nil => intro _; simpa using hrest
  | cons d rest ih =>
    intro h
    have hd := h d (List.mem_cons_self d rest)
    have hm := matchRelAt_digits units d rest hd
      (fun c hc => h c (List.mem_cons_of_mem d hc)) t ts ht
    rw [hnone] at hm
    simp only [Option.map_none'] at hm
    show searchRel units (d :: (rest ++ t :: ts)) = none
    simp only [searchRel, hm]
    exact ih (fun c hc => h c (List.mem_cons_of_mem d hc))

/-- `String.data` of a literal character list. -/
theorem strData_mk (l : List Char) : (⟨l⟩ : String).data = l := rfl

/-- `lowerChars` distributes over append. -/
theorem lowerChars_append (a b : List Char) :
    lowerChars (a ++ b) = lowerChars a ++ lowerChars b := List.map_append _ _ _

/-- On a digit-headed input whose tail contains no keyword, the LinkedIn
parser reduces to its regex branch. -/
theorem linkedin_parse_digits_eq (now : Int) (d : Char) (ds : List Char)
    (hd : d.isDigit = true) (hds : ∀ c ∈ ds, c.isDigit = true)
    (t : Char) (ts : List Char)
    (hjustT : hasSubstr "just now".data (t :: ts) = false)
    (htodayT : hasSubstr "today".data (t :: ts) = false)
    (hlowT : lowerChars (t :: ts) = t :: ts) :
    linkedin_parse_relative_date now ⟨(d :: ds) ++ t :: ts⟩
      = (match searchRel ["day".data, "week".data, "month".data, "hour".data]
            ((d :: ds) ++ t :: ts) with
         | some (num, unit) =>
           if unit = "hour".data then some (now - (num : Int) * 3600)
           else if unit = "day".data then some (now - (num : Int) * 86400)
           else if unit = "week".data then some (now - (num : Int) * 604800)
           else if unit = "month".data then some (now - (num : Int) * 2592000)
           else none
         | none => none) := by
  have hall : ∀ c ∈ d :: ds, c.isDigit = true := by
    intro c hc
    rcases List.mem_cons.mp hc with rfl | hm
    · exact hd
    · exact hds c hm
  have hlow : lowerChars ((d :: ds) ++ t :: ts) = (d :: ds) ++ t :: ts := by
    rw [lowerChars_append, lowerChars_digits (d :: ds) hall, hlowT]
  have hjust : hasSubstr "just now".data ((d :: ds) ++ t :: ts) = false := by
    rw [show "just now".data = 'j' :: "ust now".data from rfl,
      hasSubstr_nondigit_head 'j' "ust now".data (by decide) (d :: ds) (t :: ts) hall]
    exact hjustT
  have htoday : hasSubstr "today".data ((d :: ds) ++ t :: ts) = false := by
    rw [show "today".data = 't' :: "oday".data from rfl,
      hasSubstr_nondigit_head 't' "oday".data (by decide) (d :: ds) (t :: ts) hall]
    exact htodayT
  simp only [linkedin_parse_relative_date, strData_mk, hlow, hjust, htoday,
    Bool.or_self, Bool.false_eq_true, if_false]

/-- On a digit-headed input whose tail contains no keyword, the Google
parser reduces to its regex branch. -/
theorem google_parse_digits_eq (now : Int) (d : Char) (ds : List Char)
    (hd : d.isDigit = true) (hds : ∀ c ∈ ds, c.isDigit = true)
    (t : Char) (ts : List Char)
    (htodayT : hasSubstr "today".data (t :: ts) = false)
    (hjustT : hasSubstr "just".data (t :: ts) = false)
    (hyestT : hasSubstr "yesterday".data (t :: ts) = false)
    (hlowT : lowerChars (t :: ts) = t :: ts) :
    google_parse_date now ⟨(d :: ds) ++ t :: ts⟩
      = (match searchRel ["day".data, "week".data, "month".data]
            ((d :: ds) ++ t :: ts) with
         | some (num, unit) =>
           if unit = "day".data then some (now - (num : Int) * 86400)
           else if unit = "week".data then some (now - (num : Int) * 604800)
           else if unit = "month".data then some (now - (num : Int) * 2592000)
           else none
         | none => none) := by
  have hall : ∀ c ∈ d :: ds, c.isDigit = true := by
    intro c hc
    rcases List.mem_cons.mp hc with rfl | hm
    · exact hd
    · exact hds c hm
  have hlow : lowerChars ((d :: ds) ++ t :: ts) = (d :: ds) ++ t :: ts := by
    rw [lowerChars_append, lowerChars_digits (d :: ds) hall, hlowT]
  have htoday : hasSubstr "today".data ((d :: ds) ++ t :: ts) = false := by
    rw [show "today".data = 't' :: "oday".data from rfl,
      hasSubstr_nondigit_head 't' "oday".data (by decide) (d :: ds) (t :: ts) hall]
    exact htodayT
  have hjust : hasSubstr "just".data ((d :: ds) ++ t :: ts) = false := by
    rw [show "just".data = 'j' :: "ust".data from rfl,
      hasSubstr_nondigit_head 'j' "ust".data (by decide) (d :: ds) (t :: ts) hall]
    exact hjustT
  have hyest : hasSubstr "yesterday".data ((d :: ds) ++ t :: ts) = false := by
    rw [show "yesterday".data = 'y' :: "esterday".data from rfl,
      hasSubstr_nondigit_head 'y' "esterday".data (by decide) (d :: ds) (t :: ts) hall]
    exact hyestT
  simp only [google_parse_date, strData_mk, hlow, htoday, hjust, hyest,
    Bool.or_self, Bool.false_eq_true, if_false]

/-- C8 counterexample: the adapters do not share one relative-date parser —
on "yesterday" LinkedIn's parser yields no date while Google's yields
now − 1 day, refuting "for every adapter … maps 'yesterday' to now minus
one day". -/
theorem c8_counterexample :
    linkedin_parse_relative_date 1000000 "yesterday" = none ∧
    google_parse_date 1000000 "yesterday" = some (1000000 - 86400) := by
  constructor <;> rfl

/-- C8 (amended): LinkedIn and Google each implement their own relative-date
parser.  Both map `N {day|week|month}(s) ago` to now minus that duration and
`today`/`just now` to now; only Google maps `yesterday` to now − 1 day
(LinkedIn yields no date there), and only LinkedIn handles `N hours ago`
(Google yields no date there). -/
theorem c8_relative_date_parsers (now : Int) :
    (∀ (d : Char) (ds : List Char), d.isDigit = true → (∀ c ∈ ds, c.isDigit = true) →
      linkedin_parse_relative_date now ⟨(d :: ds) ++ " days ago".data⟩
        = some (now - (digitsVal (d :: ds) : Int) * 86400) ∧
      google_parse_date now ⟨(d :: ds) ++ " days ago".data⟩
        = some (now - (digitsVal (d :: ds) : Int) * 86400) ∧
      linkedin_parse_relative_date now ⟨(d :: ds) ++ " weeks ago".data⟩
        = some (now - (digitsVal (d :: ds) : Int) * 604800) ∧
      google_parse_date now ⟨(d :: ds) ++ " weeks ago".data⟩
        = some (now - (digitsVal (d :: ds) : Int) * 604800) ∧
      linkedin_parse_relative_date now ⟨(d :: ds) ++ " months ago".data⟩
        = some (now - (digitsVal (d :: ds) : Int) * 2592000) ∧
      google_parse_date now ⟨(d :: ds) ++ " months ago".data⟩
        = some (now - (digitsVal (d :: ds) : Int) * 2592000) ∧
      linkedin_parse_relative_date now ⟨(d :: ds) ++ " hours ago".data⟩
        = some (now - (digitsVal (d :: ds) : Int) * 3600) ∧
      google_parse_date now ⟨(d :: ds) ++ " hours ago".data⟩ = none) ∧
    linkedin_parse_relative_date now "today" = some now ∧
    google_parse_date now "today" = some now ∧
    linkedin_parse_relative_date now "just now" = some now ∧
    google_parse_date now "just now" = some now ∧
    google_parse_date now "yesterday" = some (now - 86400) ∧
    linkedin_parse_relative_date now "yesterday" = none ∧
    linkedin_parse_relative_date now "1 day ago" = some (now - 86400) ∧
    google_parse_date now "1 day ago" = some (now - 86400) := by
  refine ⟨?_, rfl, rfl, rfl, rfl, rfl, rfl, rfl, rfl⟩
  intro d ds hd hds
  refine ⟨?_, ?_, ?_, ?_, ?_, ?_, ?_, ?_⟩
  · rw [linkedin_parse_digits_eq now d ds hd hds ' ' "days ago".data
      (by decide) (by decide) (by decide),
      show ((d :: ds) ++ " days ago".data) = ((d :: ds) ++ ' ' :: "days ago".data) from rfl,
      searchRel_digits_some _ d ds hd hds ' ' "days ago".data (by decide) "day".data (by decide)]
    rfl
  · rw [google_parse_digits_eq now d ds hd hds ' ' "days ago".data
      (by decide) (by decide) (by decide) (by decide),
      show ((d :: ds) ++ " days ago".data) = ((d :: ds) ++ ' ' :: "days ago".data) from rfl,
      searchRel_digits_some _ d ds hd hds ' ' "days ago".data (by decide) "day".data (by decide)]
    rfl
  · rw [linkedin_parse_digits_eq now d ds hd hds ' ' "weeks ago".data
      (by decide) (by decide) (by decide),
      show ((d :: ds) ++ " weeks ago".data) = ((d :: ds) ++ ' ' :: "weeks ago".data) from rfl,
      searchRel_digits_some _ d ds hd hds ' ' "weeks ago".data (by decide) "week".data (by decide)]
    rfl
  · rw [google_parse_digits_eq now d ds hd hds ' ' "weeks ago".data
      (by decide) (by decide) (by decide) (by decide),
      show ((d :: ds) ++ " weeks ago".data) = ((d :: ds) ++ ' ' :: "weeks ago".data) from rfl,
      searchRel_digits_some _ d ds hd hds ' ' "weeks ago".data (by decide) "week".data (by decide)]
    rfl
  · rw [linkedin_parse_digits_eq now d ds hd hds ' ' "months ago".data
      (by decide) (by decide) (by decide),
      show ((d :: ds) ++ " months ago".data) = ((d :: ds) ++ ' ' :: "months ago".data) from rfl,
      searchRel_digits_some _ d ds hd hds ' ' "months ago".data (by decide) "month".data (by decide)]
    rfl
  · rw [google_parse_digits_eq now d ds hd hds ' ' "months ago".data
      (by decide) (by decide) (by decide) (by decide),
      show ((d :: ds) ++ " months ago".data) = ((d :: ds) ++ ' ' :: "months ago".data) from rfl,
      searchRel_digits_some _ d ds hd hds ' ' "months ago".data (by decide) "month".data (by decide)]
    rfl
  · rw [linkedin_parse_digits_eq now d ds hd hds ' ' "hours ago".data
      (by decide) (by decide) (by decide),
      show ((d :: ds) ++ " hours ago".data) = ((d :: ds) ++ ' ' :: "hours ago".data) from rfl,
      searchRel_digits_some _ d ds hd hds ' ' "hours ago".data (by decide) "hour".data (by decide)]
    rfl
  · have hall : ∀ c ∈ d :: ds, c.isDigit = true := by
      intro c hc
      rcases List.mem_cons.mp hc with rfl | hm
      · exact hd
      · exact hds c hm
    rw [google_parse_digits_eq now d ds hd hds ' ' "hours ago".data
      (by decide) (by decide) (by decide) (by decide),
      show ((d :: ds) ++ " hours ago".data) = ((d :: ds) ++ ' ' :: "hours ago".data) from rfl,
      searchRel_digits_none ["day".data, "week".data, "month".data] ' ' "hours ago".data
        (by decide) (by decide) (by decide) (d :: ds) hall]

/-- Witness for C8: the general day/hour forms instantiated at "21". -/
theorem c8_relative_date_parsers_witness :
    linkedin_parse_relative_date 0 ⟨('2' :: ['1']) ++ " days ago".data⟩
      = some (0 - (digitsVal ('2' :: ['1']) : Int) * 86400) ∧
    google_parse_date 0 ⟨('2' :: ['1']) ++ " hours ago".data⟩ = none :=
  have h := (c8_relative_date_parsers 0).1 '2' ['1'] (by decide) (by decide)
  ⟨h.1, h.2.2.2.2.2.2.2⟩

/-- C7 counterexample: for a posting one hour in the future the code
returns ⌊−3600 / 86400⌋ = −1 days, while truncation toward zero (what the
claim states) would give 0 — the division is floored, not truncated. -/
theorem c7_counterexample :
    days_since_posted 0 (some 3600) = ((-1 : Int) : WithTop Int) ∧
    Int.tdiv (0 - 3600) 86400 = 0 ∧
    days_since_posted 0 (some 3600) ≠ ((Int.tdiv (0 - 3600) 86400 : Int) : WithTop Int) := by
  refine ⟨by decide, by decide, by decide⟩

/-- C7 (amended): `days_since_posted` is `⊤` (infinity) for an absent date
and otherwise the *floor* of the elapsed seconds over 86400 — characterised
by `86400·q ≤ now − d < 86400·(q+1)`; the result is negative whenever the
posted date is in the future, and the age filter keeps such a job (given a
title match and a non-negative `max_age_days`) instead of erroring. -/
theorem c7_days_floor (now : Int) :
    days_since_posted now none = ⊤ ∧
    (∀ d : Int,
      days_since_posted now (some d) = (((now - d).fdiv 86400 : Int) : WithTop Int) ∧
      86400 * ((now - d).fdiv 86400) ≤ now - d ∧
      now - d < 86400 * ((now - d).fdiv 86400 + 1) ∧
      (now < d → (now - d).fdiv 86400 < 0)) ∧
    (∀ (job_titles : List String) (max_age_days : Int) (j : Job) (d : Int),
      titleMatch job_titles j.title = true → j.posted_date = some d → now < d →
      0 ≤ max_age_days → keepJob job_titles max_age_days now j = true) := by
  refine ⟨rfl, ?_, ?_⟩
  · intro d
    have hmod := Int.fdiv_add_fmod (now - d) 86400
    have h0 : 0 ≤ (now - d).fmod 86400 := Int.fmod_nonneg' (now - d) (by norm_num)
    have h1 : (now - d).fmod 86400 < 86400 := Int.fmod_lt_of_pos (now - d) (by norm_num)
    exact ⟨rfl, by omega, by omega, fun hlt => by omega⟩
  · intro job_titles max_age_days j d ht hp hlt hmax
    have hmod := Int.fdiv_add_fmod (now - d) 86400
    have h0 : 0 ≤ (now - d).fmod 86400 := Int.fmod_nonneg' (now - d) (by norm_num)
    have h1 : (now - d).fmod 86400 < 86400 := Int.fmod_lt_of_pos (now - d) (by norm_num)
    have hneg : (now - d).fdiv 86400 < 0 := by omega
    rw [keepJob, ht, Bool.true_and, jobTooOld_some max_age_days now d j hp]
    simp only [Bool.not_eq_true', decide_eq_false_iff_not, Int.not_lt]
    omega

/-- Witness for C7: the floor characterisation and the filter's tolerance of
a future date, at now = 0, posted = 3600. -/
theorem c7_days_floor_witness :
    (days_since_posted 0 (some 3600) = (((0 - 3600 : Int).fdiv 86400 : Int) : WithTop Int) ∧
      86400 * ((0 - 3600 : Int).fdiv 86400) ≤ 0 - 3600 ∧
      (0 - 3600 : Int) < 86400 * ((0 - 3600 : Int).fdiv 86400 + 1) ∧
      ((0 : Int) < 3600 → (0 - 3600 : Int).fdiv 86400 < 0)) ∧
    keepJob ["Data Engineer"] 30 0
      { exJob "f" "Data Engineer" "Berlin" with posted_date := some 3600 } = true :=
  ⟨(c7_days_floor 0).2.1 3600,
   (c7_days_floor 0).2.2 ["Data Engineer"] 30
     { exJob "f" "Data Engineer" "Berlin" with posted_date := some 3600 } 3600
     (by decide) rfl (by decide) (by decide)⟩

/-- C9: the location classifiers are case-insensitive substring matches
against their fixed vocabularies — any vocabulary entry occurring anywhere
in the string matches, and pre-lower-casing the input changes nothing —
and `normalize_location` collapses whitespace runs and applies the fixed
substitution table, as on the spec's concrete examples. -/
theorem c9_location_classifiers :
    is_eu_location "Berlin, Germany" = true ∧
    is_eu_location "Dubai, UAE" = false ∧
    is_uae_location "Abu Dhabi" = true ∧
    hasSubstr "Germany".data (normalize_location "Deutschland").data = true ∧
    (∀ (pre suf country : String), country ∈ eu_countries →
      is_eu_location (pre ++ country ++ suf) = true) ∧
    (∀ (pre suf ind : String), ind ∈ uae_indicators →
      is_uae_location (pre ++ ind ++ suf) = true) ∧
    (∀ s : String, is_eu_location (lowerStr s) = is_eu_location s) ∧
    (∀ s : String, is_uae_location (lowerStr s) = is_uae_location s) ∧
    normalize_location "  Berlin,   Deutschland  " = "Berlin, Germany" := by
  refine ⟨by decide, by decide, by decide, by decide, ?_, ?_, ?_, ?_, by decide⟩
  · intro pre suf country hc
    rw [is_eu_location, List.any_eq_true]
    refine ⟨country, hc, ?_⟩
    rw [containsCI, String.data_append, String.data_append, lowerChars_append,
      lowerChars_append]
    exact hasSubstr_of_middle _ _ _
  · intro pre suf ind hc
    rw [is_uae_location, List.any_eq_true]
    refine ⟨ind, hc, ?_⟩
    rw [containsCI, String.data_append, String.data_append, lowerChars_append,
      lowerChars_append]
    exact hasSubstr_of_middle _ _ _
  · intro s
    simp only [is_eu_location]
    congr 1
    funext country
    exact containsCI_lowerStr country s
  · intro s
    simp only [is_uae_location]
    congr 1
    funext ind
    exact containsCI_lowerStr ind s

/-- Witness for C9: match-anywhere and lower-case invariance at concrete
strings. -/
theorem c9_location_classifiers_witness :
    is_eu_location ("Office " ++ "Germany" ++ ", remote") = true ∧
    is_uae_location ("Hiring in " ++ "dubai" ++ " now") = true ∧
    is_eu_location (lowerStr "BERLIN, GERMANY") = is_eu_location "BERLIN, GERMANY" :=
  ⟨c9_location_classifiers.2.2.2.2.1 "Office " ", remote" "Germany" (by decide),
   c9_location_classifiers.2.2.2.2.2.1 "Hiring in " " now" "dubai" (by decide),
   c9_location_classifiers.2.2.2.2.2.2.1 "BERLIN, GERMANY"⟩

/-- C10: the filter step is `filter` + flag assignment + sort, so a dropped
job contributes nothing to the output (and, being a pure function, the
embedding leaves the input list untouched), and `setFlags` changes exactly
`is_eu`/`is_uae` — every other field, `location` included, keeps its raw
parse-time value, the normalization being applied only transiently to
compute the flags. -/
theorem c10_filter_frame (job_titles : List String) (max_age_days now : Int) :
    (∀ jobs : List Job, filter_jobs job_titles max_age_days now jobs
      = sortJobs ((jobs.filter (keepJob job_titles max_age_days now)).map setFlags)) ∧
    (∀ j : Job, (setFlags j).id = j.id ∧ (setFlags j).title = j.title ∧
      (setFlags j).company = j.company ∧ (setFlags j).location = j.location ∧
      (setFlags j).description = j.description ∧ (setFlags j).url = j.url ∧
      (setFlags j).posted_date = j.posted_date ∧
      (setFlags j).requirements = j.requirements ∧
      (setFlags j).keywords = j.keywords ∧ (setFlags j).scraped_at = j.scraped_at ∧
      (setFlags j).is_eu = is_eu_location (normalize_location j.location) ∧
      (setFlags j).is_uae = is_uae_location (normalize_location j.location)) := by
  constructor
  · intro jobs
    rw [filter_jobs, filterLoop_eq]
  · intro j
    exact ⟨rfl, rfl, rfl, rfl, rfl, rfl, rfl, rfl, rfl, rfl, rfl, rfl⟩

end JobScanner
